import Mathlib

/-!
Verification of the sdf-playground repository.

The development shallowly embeds the two cores of the program:

* the hot-reload compiler supervisor (`src/app/src/compiler.rs`): the
  background loop body is modelled as a pure step function `compilerIter`,
  and the std `mpsc` channel it publishes through is modelled as a FIFO
  queue (`mpscSend` appends, `mpscTryRecv` pops the front, as
  `Sender::send` / `Receiver::try_recv` do);
* the scene evaluator (`src/shader/src/lib.rs` and
  `src/common/src/lib.rs`): `f32` arithmetic is idealised as real
  arithmetic, glam vectors become the `Vec2`/`Vec3`/`Vec4` structures
  below, and the `Vec3::INFINITY` no-hit sentinel of `march` becomes
  `Option.none` (the code only ever tests it with `is_finite`).
-/

namespace SdfPlayground

/-- Artifact stands for the `PathBuf` of a compiled shader. -/
abbrev Artifact := Nat

/-- Timestamp stands for an opaque `SystemTime`; only equality is used. -/
abbrev Timestamp := Nat

/-- Model of `mpsc::Sender::send`: the channel created by `mpsc::channel()`
is an unbounded FIFO queue, so a send appends to the back. -/
def mpscSend (chan : List Artifact) (a : Artifact) : List Artifact :=
  chan ++ [a]

/-- Model of `mpsc::Receiver::try_recv`: pops the oldest queued value,
never blocking. -/
def mpscTryRecv : List Artifact → Option Artifact × List Artifact
  | [] => (none, [])
  | a :: rest => (some a, rest)

/-- Model of `Compiler::poll`, which is `self.rx.try_recv().ok()`. -/
def poll (chan : List Artifact) : Option Artifact :=
  (mpscTryRecv chan).1

/-- Helper for draining a channel by repeated `mpscTryRecv` (fuelled). -/
def mpscDrainAux : Nat → List Artifact → List Artifact
  | 0, _ => []
  | fuel + 1, chan =>
    match mpscTryRecv chan with
    | (some a, rest) => a :: mpscDrainAux fuel rest
    | (none, _) => []

/-- Drain a channel by polling until `none`, collecting results in order. -/
def mpscDrain (chan : List Artifact) : List Artifact :=
  mpscDrainAux chan.length chan

/-- Model of the rebuild condition
`previous_modified_at.map_or(true, |p| p != modified_at)`. -/
def shouldCompile (previousModifiedAt : Option Timestamp)
    (modifiedAt : Timestamp) : Bool :=
  match previousModifiedAt with
  | none => true
  | some p => p != modifiedAt

/-- Observable outcome of one iteration of the supervisor's background
loop: the new stored timestamp, the channel contents, whether a build was
attempted, whether a failure was logged, and whether the loop slept
(5 ms in the source) instead of building. -/
structure IterOut where
  previousModifiedAt : Option Timestamp
  chan : List Artifact
  compiled : Bool
  loggedError : Bool
  slept : Bool
  deriving DecidableEq, Repr

/-- Model of one pass through the `loop` body in `Compiler::spawn`.
The freshly read source timestamp and the result of the external build
(`some artifact` on success, `none` on failure) are inputs, since both
come from outside collaborators. -/
def compilerIter (previousModifiedAt : Option Timestamp)
    (chan : List Artifact) (modifiedAt : Timestamp)
    (buildResult : Option Artifact) : IterOut :=
  if shouldCompile previousModifiedAt modifiedAt then
    match buildResult with
    | some shaderPath =>
      { previousModifiedAt := some modifiedAt
        chan := mpscSend chan shaderPath
        compiled := true
        loggedError := false
        slept := false }
    | none =>
      { previousModifiedAt := some modifiedAt
        chan := chan
        compiled := true
        loggedError := true
        slept := false }
  else
    { previousModifiedAt := previousModifiedAt
      chan := chan
      compiled := false
      loggedError := false
      slept := true }

noncomputable section

/-- Embedding of `glam::Vec2` with real-valued components. -/
@[ext]
structure Vec2 where
  x : ℝ
  y : ℝ

/-- Embedding of `glam::Vec3` with real-valued components. -/
@[ext]
structure Vec3 where
  x : ℝ
  y : ℝ
  z : ℝ

/-- Embedding of `glam::Vec4` with real-valued components. -/
@[ext]
structure Vec4 where
  x : ℝ
  y : ℝ
  z : ℝ
  w : ℝ

instance : Add Vec2 := ⟨fun a b => ⟨a.x + b.x, a.y + b.y⟩⟩

instance : SMul ℝ Vec2 := ⟨fun c v => ⟨c * v.x, c * v.y⟩⟩

/-- Dot product of two `Vec2`s, as `glam::Vec2::dot`. -/
def Vec2.dot (a b : Vec2) : ℝ := a.x * b.x + a.y * b.y

/-- Embedding of `glam::Vec2::extend`. -/
def Vec2.extend (v : Vec2) (z : ℝ) : Vec3 := ⟨v.x, v.y, z⟩

instance : Add Vec3 := ⟨fun a b => ⟨a.x + b.x, a.y + b.y, a.z + b.z⟩⟩

instance : Sub Vec3 := ⟨fun a b => ⟨a.x - b.x, a.y - b.y, a.z - b.z⟩⟩

instance : Neg Vec3 := ⟨fun v => ⟨-v.x, -v.y, -v.z⟩⟩

instance : SMul ℝ Vec3 := ⟨fun c v => ⟨c * v.x, c * v.y, c * v.z⟩⟩

instance : Zero Vec3 := ⟨⟨0, 0, 0⟩⟩

/-- Dot product of two `Vec3`s, as `glam::Vec3::dot`. -/
def Vec3.dot (a b : Vec3) : ℝ := a.x * b.x + a.y * b.y + a.z * b.z

/-- Embedding of `glam::Vec3::length`, the square root of the self-dot. -/
def Vec3.length (v : Vec3) : ℝ := Real.sqrt (v.dot v)

/-- Embedding of `glam::Vec3::normalize`: the vector divided by its
length. -/
def Vec3.normalize (v : Vec3) : Vec3 :=
  ⟨v.x / v.length, v.y / v.length, v.z / v.length⟩

/-- Embedding of `glam::Vec3::cross`. -/
def Vec3.cross (a b : Vec3) : Vec3 :=
  ⟨a.y * b.z - a.z * b.y, a.z * b.x - a.x * b.z, a.x * b.y - a.y * b.x⟩

/-- Embedding of `glam::Vec3::abs` (componentwise absolute value). -/
def Vec3.abs (v : Vec3) : Vec3 := ⟨|v.x|, |v.y|, |v.z|⟩

/-- Embedding of `glam::Vec3::max` (componentwise maximum). -/
def Vec3.maxv (a b : Vec3) : Vec3 :=
  ⟨max a.x b.x, max a.y b.y, max a.z b.z⟩

/-- Embedding of `glam::Vec3::max_element`. -/
def Vec3.maxElement (v : Vec3) : ℝ := max v.x (max v.y v.z)

/-- Embedding of the `xz` swizzle of a `Vec3`. -/
def Vec3.xz (v : Vec3) : Vec2 := ⟨v.x, v.z⟩

/-- Embedding of `glam::Vec3::extend`. -/
def Vec3.extend (v : Vec3) (w : ℝ) : Vec4 := ⟨v.x, v.y, v.z, w⟩

/-- Embedding of the `xy` swizzle of a `Vec4`. -/
def Vec4.xy (v : Vec4) : Vec2 := ⟨v.x, v.y⟩

/-- Embedding of `glam::Mat3` via its three column vectors. -/
structure Mat3 where
  x_axis : Vec3
  y_axis : Vec3
  z_axis : Vec3

/-- Matrix-vector product: glam matrices are column-major, so the
product is the column combination weighted by the vector components. -/
def Mat3.mulVec (m : Mat3) (v : Vec3) : Vec3 :=
  v.x • m.x_axis + v.y • m.y_axis + v.z • m.z_axis

/-- Embedding of the `Params` uniform record of `common/src/lib.rs`. -/
structure Params where
  width : Nat
  height : Nat
  time : ℝ

/-- Embedding of `direction` from `common/src/lib.rs`: the per-pixel
pinhole-camera view ray. -/
def direction (origin : Vec3) (uv : Vec2) : Vec3 :=
  let up : Vec3 := ⟨0, 1, 0⟩
  let f := -(Vec3.normalize origin)
  let s := Vec3.normalize (Vec3.cross f up)
  let u := Vec3.cross s f
  let camera : Mat3 := ⟨s, u, f⟩
  let uv1 : Vec2 := ⟨uv.x * 2 - 1, uv.y * 2 - 1⟩
  let uv2 : Vec2 := ⟨uv1.x, -uv1.y⟩
  Vec3.normalize (camera.mulVec (uv2.extend 1))

namespace sdf

/-- Embedding of `sdf::union`: `f1.min(f2)`. -/
def union (f1 f2 : ℝ) : ℝ := min f1 f2

/-- Embedding of `sdf::subtraction`: `f1.max(-f2)`. -/
def subtraction (f1 f2 : ℝ) : ℝ := max f1 (-f2)

/-- Embedding of `sdf::intersection`: `f1.max(f2)`. -/
def intersection (f1 f2 : ℝ) : ℝ := max f1 f2

/-- Embedding of `sdf::sphere`: `p.length() - r`. -/
def sphere (p : Vec3) (r : ℝ) : ℝ := p.length - r

/-- Embedding of `sdf::rect`. -/
def rect (p : Vec3) (b : Vec3) : ℝ :=
  let q := p.abs - b
  (q.maxv 0).length + min q.maxElement 0

end sdf

/-- State threaded through the 15-iteration wave loop of `sdf::ocean`. -/
structure WaveState where
  hSum : ℝ
  hWeight : ℝ
  wavePos : Vec2
  waveFreq : ℝ
  waveWeight : ℝ
  noise : ℝ

/-- One iteration of the wave loop of `sdf::ocean`. -/
def waveStep (time : ℝ) (s : WaveState) : WaveState :=
  let wave_dir : Vec2 := ⟨Real.cos s.noise, Real.sin s.noise⟩
  let wave := wave_dir.dot s.wavePos * s.waveFreq + time
  let wave_h := Real.exp (Real.sin wave - 1)
  let wave_dh := -wave_h * Real.cos wave
  { hSum := s.hSum + wave_h * s.waveWeight
    hWeight := s.hWeight + s.waveWeight
    wavePos := s.wavePos + (0.25 * wave_dh * s.waveWeight) • wave_dir
    waveFreq := s.waveFreq * 1.18
    waveWeight := s.waveWeight * 0.82
    noise := s.noise + 1234.4321 }

/-- Initial wave-loop state of `sdf::ocean` for an (already offset)
point. -/
def waveInit (point : Vec3) : WaveState :=
  { hSum := 0
    hWeight := 0
    wavePos := point.xz
    waveFreq := 1
    waveWeight := 1
    noise := 0 }

/-- Embedding of `sdf::ocean`. -/
def sdf.ocean (time : ℝ) (point : Vec3) : ℝ :=
  let point := point + (⟨128, 0, 128⟩ : Vec3)
  let time := 2 * time
  let s := (waveStep time)^[15] (waveInit point)
  point.y - s.hSum / s.hWeight

/-- Exact value of `f32::MAX`. -/
def f32Max : ℝ := 2 ^ 128 - 2 ^ 104

/-- The scene selector constant `SCENE` in `shader/src/lib.rs`. -/
def SCENE : Nat := 4

/-- Embedding of `scene`: the match over the `SCENE` constant. -/
def scene (time : ℝ) (point : Vec3) : ℝ :=
  if SCENE = 1 then sdf.sphere point 5
  else if SCENE = 2 then sdf.rect point ⟨3, 3, 3⟩
  else if SCENE = 3 then
    sdf.intersection (sdf.sphere point (4 + Real.sin (time * 3)))
      (sdf.rect point ⟨3, 3, 3⟩)
  else if SCENE = 4 then
    if point.length ≤ 15 then
      sdf.intersection (sdf.ocean time point) (sdf.sphere point 7)
    else f32Max
  else f32Max

/-- Fuelled body of the `for` loop in `march`.  A returned `none` is the
`Vec3::INFINITY` no-hit sentinel of the source. -/
def marchAux (sdfFn : Vec3 → ℝ) (origin direction : Vec3) :
    Nat → ℝ → Option Vec3
  | 0, _ => none
  | n + 1, distance =>
    let point := origin + distance • direction
    let step := sdfFn point
    if step < 0.01 then some point
    else if distance + step > 100 then none
    else marchAux sdfFn origin direction n (distance + step)

/-- The march loop (64 steps, from accumulated distance 0) over an
arbitrary distance field. -/
def marchFn (sdfFn : Vec3 → ℝ) (origin direction : Vec3) : Option Vec3 :=
  marchAux sdfFn origin direction 64 0

/-- Embedding of `march`: the loop applied to the `scene` field. -/
def march (time : ℝ) (origin direction : Vec3) : Option Vec3 :=
  marchFn (scene time) origin direction

/-- Specification-side state of the marching loop, used to transcribe the
claim's description of the algorithm: the walk is either still running at
some accumulated distance, has hit a point, or has given up. -/
inductive MarchState where
  | running (distance : ℝ)
  | hit (point : Vec3)
  | missed
  deriving Inhabited

/-- Specification-side transcription of one marching step, following the
claim's words: evaluate the scene distance at
origin + direction * accumulated_distance, report a hit below epsilon
0.01, otherwise add the distance, and give up once the accumulated
distance exceeds the far plane 100. -/
def marchSpecStep (sdfFn : Vec3 → ℝ) (origin direction : Vec3) :
    MarchState → MarchState
  | MarchState.running distance =>
    let point := origin + distance • direction
    let step := sdfFn point
    if step < 0.01 then MarchState.hit point
    else if distance + step > 100 then MarchState.missed
    else MarchState.running (distance + step)
  | s => s

/-- Specification-side transcription of `march` as the claim states it:
at most 64 iterations of `marchSpecStep` from accumulated distance 0;
a hit yields the hit point, anything else yields the no-hit sentinel. -/
def marchSpec (time : ℝ) (origin direction : Vec3) : Option Vec3 :=
  match (marchSpecStep (scene time) origin direction)^[64]
      (MarchState.running 0) with
  | MarchState.hit p => some p
  | _ => none

/-- Embedding of `normal`: the central-difference gradient estimate. -/
def normal (time : ℝ) (point : Vec3) : Vec3 :=
  let d : ℝ := 0.001
  let dx : Vec3 := ⟨d, 0, 0⟩
  let dy : Vec3 := ⟨0, d, 0⟩
  let dz : Vec3 := ⟨0, 0, d⟩
  let gx := scene time (point + dx) - scene time (point - dx)
  let gy := scene time (point + dy) - scene time (point - dy)
  let gz := scene time (point + dz) - scene time (point - dz)
  Vec3.normalize ⟨gx, gy, gz⟩

/-- Embedding of `f32::clamp`. -/
def clamp (v lo hi : ℝ) : ℝ := min (max v lo) hi

/-- Embedding of the fragment shader `main_fs`.  The source stores the
marched point as a `Vec3` and branches on `is_finite`; under the
`Option` embedding of the sentinel that branch is the `match` below. -/
def main_fs (pos : Vec4) (params : Params) : Vec4 :=
  let time := params.time
  let uv : Vec2 :=
    ⟨(pos.xy).x / (params.width : ℝ), (pos.xy).y / (params.height : ℝ)⟩
  let sun_pos : Vec3 := ⟨50, 100, 50⟩
  let ray_origin : Vec3 := ⟨7, 4, 7⟩
  let ray_direction := direction ray_origin uv
  match march time ray_origin ray_direction with
  | some hit_point =>
    let hit_normal := normal time hit_point
    let sun_dir := Vec3.normalize (sun_pos - hit_point)
    let sun_cosine := clamp (hit_normal.dot sun_dir) 0 1
    let diffuse := sun_cosine • (⟨0.02, 0.19, 0.58⟩ : Vec3)
    let specular := (sun_cosine ^ 50) • (⟨1, 1, 1⟩ : Vec3)
    (diffuse + specular).extend 1
  | none => ⟨0, 0, 0, 1⟩

end

/-! Theorems. -/

/-- Components of a `Vec2` sum. -/
@[simp]
theorem Vec2.fst_add (a b : Vec2) : (a + b).x = a.x + b.x := rfl

/-- Components of a `Vec2` sum. -/
@[simp]
theorem Vec2.snd_add (a b : Vec2) : (a + b).y = a.y + b.y := rfl

/-- Components of a `Vec3` sum. -/
@[simp]
theorem Vec3.add_x (a b : Vec3) : (a + b).x = a.x + b.x := rfl

/-- Components of a `Vec3` sum. -/
@[simp]
theorem Vec3.add_y (a b : Vec3) : (a + b).y = a.y + b.y := rfl

/-- Components of a `Vec3` sum. -/
@[simp]
theorem Vec3.add_z (a b : Vec3) : (a + b).z = a.z + b.z := rfl

/-- Components of a `Vec3` difference. -/
@[simp]
theorem Vec3.sub_x (a b : Vec3) : (a - b).x = a.x - b.x := rfl

/-- Components of a `Vec3` difference. -/
@[simp]
theorem Vec3.sub_y (a b : Vec3) : (a - b).y = a.y - b.y := rfl

/-- Components of a `Vec3` difference. -/
@[simp]
theorem Vec3.sub_z (a b : Vec3) : (a - b).z = a.z - b.z := rfl

/-- Components of a `Vec3` negation. -/
@[simp]
theorem Vec3.neg_x (a : Vec3) : (-a).x = -a.x := rfl

/-- Components of a `Vec3` negation. -/
@[simp]
theorem Vec3.neg_y (a : Vec3) : (-a).y = -a.y := rfl

/-- Components of a `Vec3` negation. -/
@[simp]
theorem Vec3.neg_z (a : Vec3) : (-a).z = -a.z := rfl

/-- Components of a `Vec3` scalar multiple. -/
@[simp]
theorem Vec3.smul_x (c : ℝ) (v : Vec3) : (c • v).x = c * v.x := rfl

/-- Components of a `Vec3` scalar multiple. -/
@[simp]
theorem Vec3.smul_y (c : ℝ) (v : Vec3) : (c • v).y = c * v.y := rfl

/-- Components of a `Vec3` scalar multiple. -/
@[simp]
theorem Vec3.smul_z (c : ℝ) (v : Vec3) : (c • v).z = c * v.z := rfl

/-- Components of a `Vec2` scalar multiple. -/
@[simp]
theorem Vec2.fst_smul (c : ℝ) (v : Vec2) : (c • v).x = c * v.x := rfl

/-- Components of a `Vec2` scalar multiple. -/
@[simp]
theorem Vec2.snd_smul (c : ℝ) (v : Vec2) : (c • v).y = c * v.y := rfl

/-- C1 counterexample.  The handoff is `mpsc::channel()`, an unbounded
FIFO queue: publishing artifact 1 while artifact 0 is still pending does
not overwrite the pending artifact (the queue then holds both), and the
next `poll()` returns the older artifact 0, not the most recently built
artifact 1.  This falsifies the claimed single-slot latest-wins
behaviour at a concrete input. -/
theorem c1_single_slot_latest_wins_false :
    mpscSend (mpscSend ([] : List Artifact) 0) 1 = [0, 1] ∧
    poll (mpscSend (mpscSend ([] : List Artifact) 0) 1) = some 0 ∧
    (0 : Artifact) ≠ 1 :=
  ⟨rfl, rfl, by decide⟩

/-- Helper: folding sends over a queue appends the build list. -/
theorem foldl_mpscSend (builds : List Artifact) :
    ∀ acc : List Artifact, builds.foldl mpscSend acc = acc ++ builds := by
  induction builds with
  | nil => intro acc; simp
  | cons b bs ih =>
    intro acc
    simp [mpscSend, ih (acc ++ [b])]

/-- Helper: with enough fuel, draining a queue returns it unchanged. -/
theorem mpscDrainAux_eq (fuel : Nat) :
    ∀ chan : List Artifact, chan.length ≤ fuel →
      mpscDrainAux fuel chan = chan := by
  induction fuel with
  | zero =>
    intro chan h
    cases chan with
    | nil => rfl
    | cons a rest => simp at h
  | succ n ih =>
    intro chan h
    cases chan with
    | nil => rfl
    | cons a rest =>
      simp only [mpscDrainAux, mpscTryRecv]
      rw [ih rest (by simpa using Nat.le_of_succ_le_succ h)]

/-- C1 amended.  The supervisor-to-host handoff is an unbounded FIFO
queue: every successfully built artifact is enqueued without overwriting
a pending one, and `poll()` is non-blocking and returns the queued
artifacts one per call, in build order, each exactly once (polling an
empty queue returns `none`). -/
theorem c1_fifo_queue_in_build_order (builds : List Artifact) :
    mpscDrain (builds.foldl mpscSend []) = builds ∧
    poll ([] : List Artifact) = none := by
  constructor
  · rw [foldl_mpscSend builds []]
    simp only [List.nil_append]
    exact mpscDrainAux_eq builds.length builds le_rfl
  · rfl

/-- C2.  In each iteration of the background loop, a build is attempted
exactly when the freshly read timestamp differs from the stored one
(in particular always on the very first observation, when none is
stored); when the timestamp is unchanged nothing is built, the state and
channel are untouched, and the loop idles. -/
theorem c2_rebuild_iff_timestamp_changed (prev : Option Timestamp)
    (chan : List Artifact) (m : Timestamp) (b : Option Artifact) :
    ((compilerIter prev chan m b).compiled = true ↔ prev ≠ some m) ∧
    compilerIter (some m) chan m b =
      ⟨some m, chan, false, false, true⟩ ∧
    (compilerIter none chan m b).compiled = true := by
  refine ⟨?_, ?_, ?_⟩
  · cases prev with
    | none =>
      cases b <;> simp [compilerIter, shouldCompile]
    | some p =>
      by_cases hpm : p = m
      · subst hpm
        cases b <;> simp [compilerIter, shouldCompile]
      · cases b <;> simp [compilerIter, shouldCompile, hpm]
  · simp [compilerIter, shouldCompile]
  · cases b <;> simp [compilerIter, shouldCompile]

/-- C4.  When the rebuild condition triggers and the build fails, the
loop iteration records the freshly read timestamp anyway, publishes
nothing to the channel, logs the failure, and does not sleep; afterwards
the same unchanged timestamp does not retrigger a build, while a changed
timestamp does (the failure is non-fatal to the loop). -/
theorem c4_failed_build_records_timestamp (prev : Option Timestamp)
    (chan : List Artifact) (m : Timestamp) (hm : prev ≠ some m) :
    compilerIter prev chan m none =
      ⟨some m, chan, true, true, false⟩ ∧
    (compilerIter (some m) chan m none).compiled = false ∧
    (compilerIter (some m) chan (m + 1) none).compiled = true := by
  refine ⟨?_, ?_, ?_⟩
  · cases prev with
    | none => simp [compilerIter, shouldCompile]
    | some p =>
      have hpm : p ≠ m := fun h => hm (by rw [h])
      simp [compilerIter, shouldCompile, hpm]
  · simp [compilerIter, shouldCompile]
  · simp [compilerIter, shouldCompile, mpscSend, Nat.succ_ne_self]

/-- C4 witness: the failed-build iteration at a concrete input. -/
theorem c4_witness :
    (none : Option Timestamp) ≠ some 0 ∧
    (compilerIter none [] 0 none = ⟨some 0, [], true, true, false⟩ ∧
     (compilerIter (some 0) [] 0 none).compiled = false ∧
     (compilerIter (some 0) [] (0 + 1) none).compiled = true) :=
  ⟨by decide, c4_failed_build_records_timestamp none [] 0 (by decide)⟩

/-- Helper: one wave-loop step preserves the loop invariant that the
per-wave weight is positive, the accumulated height is positive and at
most the accumulated weight, and the accumulated weight is at least 1. -/
theorem waveStep_inv (t : ℝ) (s : WaveState)
    (h1 : 0 < s.waveWeight) (h2 : 0 < s.hSum)
    (h3 : s.hSum ≤ s.hWeight) (h4 : 1 ≤ s.hWeight) :
    0 < (waveStep t s).waveWeight ∧ 0 < (waveStep t s).hSum ∧
    (waveStep t s).hSum ≤ (waveStep t s).hWeight ∧
    1 ≤ (waveStep t s).hWeight := by
  simp only [waveStep]
  set w := (⟨Real.cos s.noise, Real.sin s.noise⟩ : Vec2).dot s.wavePos
    * s.waveFreq + t with hw
  have hexp0 : 0 < Real.exp (Real.sin w - 1) := Real.exp_pos _
  have hexp1 : Real.exp (Real.sin w - 1) ≤ 1 :=
    Real.exp_le_one_iff.mpr (by linarith [Real.sin_le_one w])
  refine ⟨by nlinarith, by nlinarith, ?_, by nlinarith⟩
  have : Real.exp (Real.sin w - 1) * s.waveWeight ≤ s.waveWeight := by
    nlinarith
  linarith

/-- Helper: the wave-loop invariant is preserved by any number of
iterations. -/
theorem waveIter_inv (t : ℝ) (n : Nat) :
    ∀ s : WaveState,
      0 < s.waveWeight → 0 < s.hSum → s.hSum ≤ s.hWeight →
      1 ≤ s.hWeight →
      0 < ((waveStep t)^[n] s).waveWeight ∧
      0 < ((waveStep t)^[n] s).hSum ∧
      ((waveStep t)^[n] s).hSum ≤ ((waveStep t)^[n] s).hWeight ∧
      1 ≤ ((waveStep t)^[n] s).hWeight := by
  induction n with
  | zero => intro s h1 h2 h3 h4; exact ⟨h1, h2, h3, h4⟩
  | succ n ih =>
    intro s h1 h2 h3 h4
    rw [Function.iterate_succ_apply]
    obtain ⟨g1, g2, g3, g4⟩ := waveStep_inv t s h1 h2 h3 h4
    exact ih _ g1 g2 g3 g4

/-- Helper: the first wave-loop step establishes the invariant from the
initial state (weight accumulator 0, per-wave weight 1). -/
theorem waveInit_step (t : ℝ) (p : Vec3) :
    0 < (waveStep t (waveInit p)).waveWeight ∧
    0 < (waveStep t (waveInit p)).hSum ∧
    (waveStep t (waveInit p)).hSum ≤ (waveStep t (waveInit p)).hWeight ∧
    1 ≤ (waveStep t (waveInit p)).hWeight := by
  simp only [waveStep, waveInit]
  set w := (⟨Real.cos 0, Real.sin 0⟩ : Vec2).dot p.xz * 1 + t with hw
  have hexp0 : 0 < Real.exp (Real.sin w - 1) := Real.exp_pos _
  have hexp1 : Real.exp (Real.sin w - 1) ≤ 1 :=
    Real.exp_le_one_iff.mpr (by linarith [Real.sin_le_one w])
  refine ⟨by norm_num, by simpa using hexp0, by simpa using hexp1,
    by norm_num⟩

/-- Helper: the final state of the 15-iteration wave loop satisfies the
invariant. -/
theorem waveFinal_inv (t : ℝ) (p : Vec3) :
    0 < ((waveStep t)^[15] (waveInit p)).waveWeight ∧
    0 < ((waveStep t)^[15] (waveInit p)).hSum ∧
    ((waveStep t)^[15] (waveInit p)).hSum ≤
      ((waveStep t)^[15] (waveInit p)).hWeight ∧
    1 ≤ ((waveStep t)^[15] (waveInit p)).hWeight := by
  rw [show (15 : Nat) = 14 + 1 from rfl, Function.iterate_succ_apply]
  obtain ⟨g1, g2, g3, g4⟩ := waveInit_step t p
  exact waveIter_inv t 14 _ g1 g2 g3 g4

/-- Helper: the ocean height correction is strictly positive, so the
ocean distance is strictly below the point's height. -/
theorem ocean_lt (t : ℝ) (p : Vec3) : sdf.ocean t p < p.y := by
  simp only [sdf.ocean]
  obtain ⟨g1, g2, g3, g4⟩ :=
    waveFinal_inv (2 * t) (p + (⟨128, 0, 128⟩ : Vec3))
  have hpos : 0 <
      ((waveStep (2 * t))^[15] (waveInit (p + (⟨128, 0, 128⟩ : Vec3)))).hSum /
      ((waveStep (2 * t))^[15] (waveInit (p + (⟨128, 0, 128⟩ : Vec3)))).hWeight :=
    div_pos g2 (lt_of_lt_of_le one_pos g4)
  have hy : (p + (⟨128, 0, 128⟩ : Vec3)).y = p.y := by simp
  rw [hy]
  linarith

/-- Helper: the ocean height correction is at most 1, so the ocean
distance is at least the point's height minus 1. -/
theorem ocean_ge (t : ℝ) (p : Vec3) : p.y - 1 ≤ sdf.ocean t p := by
  simp only [sdf.ocean]
  obtain ⟨g1, g2, g3, g4⟩ :=
    waveFinal_inv (2 * t) (p + (⟨128, 0, 128⟩ : Vec3))
  have hle : ((waveStep (2 * t))^[15] (waveInit (p + (⟨128, 0, 128⟩ : Vec3)))).hSum /
      ((waveStep (2 * t))^[15] (waveInit (p + (⟨128, 0, 128⟩ : Vec3)))).hWeight ≤ 1 :=
    (div_le_one (lt_of_lt_of_le one_pos g4)).mpr g3
  have hy : (p + (⟨128, 0, 128⟩ : Vec3)).y = p.y := by simp
  rw [hy]
  linarith

/-- C8.  In the ocean distance field the division never divides by zero:
the accumulated wave weight starts the loop at 0 but receives the
per-wave weight (initially 1, then decaying by factor 0.82) each of the
15 iterations, so at the division the accumulated weight is at least 1,
in particular nonzero. -/
theorem c8_ocean_weight_at_least_one (time : ℝ) (point : Vec3) :
    1 ≤ ((waveStep (2 * time))^[15]
      (waveInit (point + (⟨128, 0, 128⟩ : Vec3)))).hWeight ∧
    ((waveStep (2 * time))^[15]
      (waveInit (point + (⟨128, 0, 128⟩ : Vec3)))).hWeight ≠ 0 := by
  obtain ⟨g1, g2, g3, g4⟩ :=
    waveFinal_inv (2 * time) (point + (⟨128, 0, 128⟩ : Vec3))
  exact ⟨g4, by linarith⟩

/-- Helper: the active scene (SCENE = 4) is the ocean-in-sphere
intersection inside radius 15 and the f32::MAX short-circuit outside. -/
theorem scene_eq4 (t : ℝ) (p : Vec3) :
    scene t p = if p.length ≤ 15 then
      max (sdf.ocean t p) (sdf.sphere p 7) else f32Max := by
  norm_num [scene, SCENE, sdf.intersection]

/-- Helper: unfolding of one marching iteration. -/
theorem marchAux_succ (f : Vec3 → ℝ) (o d : Vec3) (n : Nat) (dist : ℝ) :
    marchAux f o d (n + 1) dist =
      if f (o + dist • d) < 0.01 then some (o + dist • d)
      else if dist + f (o + dist • d) > 100 then none
      else marchAux f o d n (dist + f (o + dist • d)) := rfl

/-- Helper: a hit state is a fixed point of the spec-side step. -/
theorem marchSpecStep_hit (f : Vec3 → ℝ) (o d : Vec3) (p : Vec3) :
    ∀ n : Nat, (marchSpecStep f o d)^[n] (MarchState.hit p) =
      MarchState.hit p := by
  intro n
  induction n with
  | zero => rfl
  | succ n ih => rw [Function.iterate_succ_apply]; exact ih

/-- Helper: a missed state is a fixed point of the spec-side step. -/
theorem marchSpecStep_missed (f : Vec3 → ℝ) (o d : Vec3) :
    ∀ n : Nat, (marchSpecStep f o d)^[n] MarchState.missed =
      MarchState.missed := by
  intro n
  induction n with
  | zero => rfl
  | succ n ih => rw [Function.iterate_succ_apply]; exact ih

/-- Helper: the fuelled march loop agrees with iterating the spec-side
step function and reading off the outcome. -/
theorem marchAux_eq_iterate (f : Vec3 → ℝ) (o d : Vec3) :
    ∀ (n : Nat) (dist : ℝ),
      marchAux f o d n dist =
        match (marchSpecStep f o d)^[n] (MarchState.running dist) with
        | MarchState.hit p => some p
        | _ => none := by
  intro n
  induction n with
  | zero => intro dist; rfl
  | succ n ih =>
    intro dist
    rw [Function.iterate_succ_apply, marchAux_succ]
    by_cases h1 : f (o + dist • d) < 0.01
    · rw [if_pos h1]
      have hstep : marchSpecStep f o d (MarchState.running dist) =
          MarchState.hit (o + dist • d) := by
        simp only [marchSpecStep]
        rw [if_pos h1]
      rw [hstep, marchSpecStep_hit]
    · rw [if_neg h1]
      by_cases h2 : dist + f (o + dist • d) > 100
      · rw [if_pos h2]
        have hstep : marchSpecStep f o d (MarchState.running dist) =
            MarchState.missed := by
          simp only [marchSpecStep]
          rw [if_neg h1, if_pos h2]
        rw [hstep, marchSpecStep_missed]
      · rw [if_neg h2]
        have hstep : marchSpecStep f o d (MarchState.running dist) =
            MarchState.running (dist + f (o + dist • d)) := by
          simp only [marchSpecStep]
          rw [if_neg h1, if_neg h2]
        rw [hstep, ih]

/-- C3.  `march` implements exactly the described algorithm: at most 64
iterations; each iteration evaluates the scene distance at
origin + direction * accumulated_distance, reports a hit below epsilon
0.01, otherwise adds the distance to the accumulator, and yields the
no-hit sentinel once the accumulated distance exceeds 100 or the step
budget runs out. -/
theorem c3_march_follows_spec (time : ℝ) (origin dir : Vec3) :
    march time origin dir = marchSpec time origin dir := by
  show marchAux (scene time) origin dir 64 0 = marchSpec time origin dir
  rw [marchAux_eq_iterate]
  rfl

/-- Helper: soundness of the fuelled march loop: a returned point lies
on the ray at nonnegative parameter and its distance value is below the
epsilon. -/
theorem marchAux_sound (f : Vec3 → ℝ) (o d : Vec3) :
    ∀ (n : Nat) (dist : ℝ), 0 ≤ dist → ∀ p,
      marchAux f o d n dist = some p →
      (∃ t : ℝ, 0 ≤ t ∧ p = o + t • d) ∧ f p < 0.01 := by
  intro n
  induction n with
  | zero => intro dist _ p h; exact absurd h (by simp [marchAux])
  | succ n ih =>
    intro dist hdist p h
    rw [marchAux_succ] at h
    by_cases h1 : f (o + dist • d) < 0.01
    · rw [if_pos h1] at h
      obtain rfl : o + dist • d = p := by injection h
      exact ⟨⟨dist, hdist, rfl⟩, h1⟩
    · rw [if_neg h1] at h
      by_cases h2 : dist + f (o + dist • d) > 100
      · rw [if_pos h2] at h; exact absurd h (by simp)
      · rw [if_neg h2] at h
        have hd' : 0 ≤ dist + f (o + dist • d) := by
          push_neg at h1
          linarith
        exact ih _ hd' p h

/-- C10.  Whenever `march` returns a finite point, that point lies on
the given ray at a nonnegative parameter and the scene signed distance
there is strictly below 0.01. -/
theorem c10_hit_on_ray_below_epsilon (time : ℝ) (o d p : Vec3)
    (h : march time o d = some p) :
    (∃ t : ℝ, 0 ≤ t ∧ p = o + t • d) ∧ scene time p < 0.01 := by
  have h' : marchAux (scene time) o d 64 0 = some p := h
  exact marchAux_sound (scene time) o d 64 0 le_rfl p h'

/-- Helper: the self-dot of a vector is nonnegative. -/
theorem Vec3.dot_self_nonneg (v : Vec3) : 0 ≤ v.dot v := by
  simp only [Vec3.dot]
  nlinarith [mul_self_nonneg v.x, mul_self_nonneg v.y, mul_self_nonneg v.z]

/-- Helper: the squared length is the self-dot. -/
theorem Vec3.sq_length (v : Vec3) : v.length ^ 2 = v.dot v :=
  Real.sq_sqrt (Vec3.dot_self_nonneg v)

/-- Helper: length of a scalar multiple. -/
theorem Vec3.length_smul (c : ℝ) (v : Vec3) :
    (c • v).length = |c| * v.length := by
  simp only [Vec3.length, Vec3.dot, Vec3.smul_x, Vec3.smul_y, Vec3.smul_z]
  rw [show c * v.x * (c * v.x) + c * v.y * (c * v.y) + c * v.z * (c * v.z)
      = c ^ 2 * (v.x * v.x + v.y * v.y + v.z * v.z) by ring,
    Real.sqrt_mul (sq_nonneg c), Real.sqrt_sq_eq_abs]

/-- Helper: length of a vector on the positive x axis. -/
theorem Vec3.length_xaxis (a : ℝ) (ha : 0 ≤ a) :
    Vec3.length ⟨a, 0, 0⟩ = a := by
  simp only [Vec3.length, Vec3.dot]
  rw [show a * a + 0 * 0 + 0 * 0 = a * a by ring, Real.sqrt_mul_self ha]

/-- Helper: the scene distance at the point (0, -1, 0) is below the
march epsilon (the point is under the ocean surface and inside the
radius-7 sphere). -/
theorem scene_neg_point : scene 0 ⟨0, -1, 0⟩ < 0.01 := by
  rw [scene_eq4]
  have hlen : Vec3.length ⟨0, -1, 0⟩ = 1 := by
    simp only [Vec3.length, Vec3.dot]
    rw [show (0:ℝ) * 0 + -1 * -1 + 0 * 0 = 1 by ring, Real.sqrt_one]
  rw [if_pos (by rw [hlen]; norm_num)]
  have ho : sdf.ocean 0 ⟨0, -1, 0⟩ < -1 := by
    have := ocean_lt 0 ⟨0, -1, 0⟩
    simpa using this
  have hsph : sdf.sphere (⟨0, -1, 0⟩ : Vec3) 7 = -6 := by
    show Vec3.length ⟨0, -1, 0⟩ - 7 = -6
    rw [hlen]; norm_num
  rw [hsph]
  apply max_lt (by linarith) (by norm_num)

/-- Helper: a march aimed anywhere from (0, -1, 0) hits immediately at
its own origin. -/
theorem march_neg_point :
    march 0 ⟨0, -1, 0⟩ ⟨0, 0, 1⟩ = some ⟨0, -1, 0⟩ := by
  show marchAux (scene 0) ⟨0, -1, 0⟩ ⟨0, 0, 1⟩ (63 + 1) 0 = some ⟨0, -1, 0⟩
  rw [marchAux_succ]
  have hp : (⟨0, -1, 0⟩ : Vec3) + (0 : ℝ) • (⟨0, 0, 1⟩ : Vec3) =
      ⟨0, -1, 0⟩ := by
    ext <;> simp
  rw [hp, if_pos scene_neg_point]

/-- C10 witness: the ray from (0, -1, 0) along (0, 0, 1) hits at its
origin, which lies on the ray at parameter 0 and has scene distance
below the epsilon. -/
theorem c10_witness :
    (∃ t : ℝ, 0 ≤ t ∧ (⟨0, -1, 0⟩ : Vec3) =
      ⟨0, -1, 0⟩ + t • (⟨0, 0, 1⟩ : Vec3)) ∧
    scene 0 ⟨0, -1, 0⟩ < 0.01 :=
  c10_hit_on_ray_below_epsilon 0 ⟨0, -1, 0⟩ ⟨0, 0, 1⟩ ⟨0, -1, 0⟩
    march_neg_point

/-- C5.  A ray aimed straight at a sphere of radius r centred at the
origin, cast from an origin O with r below the origin's length (and the
travel within the far plane), hits at a point whose distance from O is
the origin's length minus r, within the convergence epsilon.  In exact
real arithmetic the loop converges after at most two evaluations. -/
theorem c5_sphere_direct_hit (r : ℝ) (O : Vec3) (hr : 0 ≤ r)
    (hO : r < O.length) (hfar : O.length - r ≤ 100) :
    ∃ p : Vec3,
      marchFn (fun q => sdf.sphere q r) O (-(Vec3.normalize O)) = some p ∧
      |(p - O).length - (O.length - r)| < 0.01 := by
  have hL0 : 0 < O.length := lt_of_le_of_lt hr hO
  have hLne : O.length ≠ 0 := ne_of_gt hL0
  have hp0 : O + (0 : ℝ) • (-(Vec3.normalize O)) = O := by
    ext <;> simp
  by_cases hcase : O.length - r < 0.01
  · refine ⟨O, ?_, ?_⟩
    · show marchAux (fun q => sdf.sphere q r) O (-(Vec3.normalize O))
        (63 + 1) 0 = some O
      rw [marchAux_succ]
      simp only [hp0]
      have hc1 : sdf.sphere O r < 0.01 := hcase
      rw [if_pos hc1]
    · have hOO : O - O = (⟨0, 0, 0⟩ : Vec3) := by ext <;> simp
      have hz : Vec3.length ⟨0, 0, 0⟩ = 0 := Vec3.length_xaxis 0 le_rfl
      rw [hOO, hz, abs_of_nonpos (by linarith)]
      linarith
  · push_neg at hcase
    have hpt1 : O + (O.length - r) • (-(Vec3.normalize O)) =
        (r / O.length) • O := by
      ext <;>
        (simp only [Vec3.add_x, Vec3.add_y, Vec3.add_z, Vec3.smul_x,
          Vec3.smul_y, Vec3.smul_z, Vec3.neg_x, Vec3.neg_y, Vec3.neg_z,
          Vec3.normalize]
         field_simp
         ring)
    have hlen1 : ((r / O.length) • O).length = r := by
      rw [Vec3.length_smul, abs_of_nonneg (div_nonneg hr hL0.le)]
      field_simp
    have hstep1 : sdf.sphere ((r / O.length) • O) r = 0 := by
      show ((r / O.length) • O).length - r = 0
      rw [hlen1]; ring
    refine ⟨(r / O.length) • O, ?_, ?_⟩
    · show marchAux (fun q => sdf.sphere q r) O (-(Vec3.normalize O))
        (63 + 1) 0 = some ((r / O.length) • O)
      rw [marchAux_succ]
      simp only [hp0]
      have hc1 : ¬ sdf.sphere O r < 0.01 := not_lt.mpr hcase
      rw [if_neg hc1]
      have hc2 : ¬ ((0 : ℝ) + sdf.sphere O r > 100) := by
        show ¬ ((0 : ℝ) + (O.length - r) > 100)
        push_neg
        linarith
      rw [if_neg hc2]
      show marchAux (fun q => sdf.sphere q r) O (-(Vec3.normalize O))
        (62 + 1) ((0 : ℝ) + sdf.sphere O r) = some ((r / O.length) • O)
      rw [marchAux_succ]
      have h0s : (0 : ℝ) + sdf.sphere O r = O.length - r := by
        show (0 : ℝ) + (O.length - r) = O.length - r
        ring
      rw [h0s]
      simp only [hpt1]
      have hc3 : sdf.sphere ((r / O.length) • O) r < 0.01 := by
        rw [hstep1]; norm_num
      rw [if_pos hc3]
    · have hd2 : (r / O.length) • O - O = (r / O.length - 1) • O := by
        ext <;> simp <;> ring
      rw [hd2, Vec3.length_smul]
      have habs : |r / O.length - 1| = 1 - r / O.length := by
        rw [abs_of_nonpos (by
          have : r / O.length ≤ 1 := (div_le_one hL0).mpr hO.le
          linarith)]
        ring
      rw [habs]
      have heq : (1 - r / O.length) * O.length = O.length - r := by
        field_simp
      rw [heq]
      simp
      norm_num

/-- Helper: the length of the concrete origin (0, 0, 20). -/
theorem vec3_len_0020 : Vec3.length ⟨0, 0, 20⟩ = 20 := by
  simp only [Vec3.length, Vec3.dot]
  rw [show (0:ℝ) * 0 + 0 * 0 + 20 * 20 = 20 * 20 by ring,
    Real.sqrt_mul_self (by norm_num)]

/-- C5 witness: the march toward the radius-5 sphere from (0, 0, 20)
stops at distance 15 from the origin of the ray. -/
theorem c5_witness :
    (0 : ℝ) ≤ 5 ∧ 5 < Vec3.length ⟨0, 0, 20⟩ ∧
    Vec3.length ⟨0, 0, 20⟩ - 5 ≤ 100 ∧
    ∃ p : Vec3,
      marchFn (fun q => sdf.sphere q 5) ⟨0, 0, 20⟩
        (-(Vec3.normalize ⟨0, 0, 20⟩)) = some p ∧
      |(p - ⟨0, 0, 20⟩).length - (Vec3.length ⟨0, 0, 20⟩ - 5)| < 0.01 :=
  ⟨by norm_num,
   by rw [vec3_len_0020]; norm_num,
   by rw [vec3_len_0020]; norm_num,
   c5_sphere_direct_hit 5 ⟨0, 0, 20⟩ (by norm_num)
     (by rw [vec3_len_0020]; norm_num)
     (by rw [vec3_len_0020]; norm_num)⟩

/-- C9.  For every time and every point farther than 15 from the
origin, the active scene returns exactly f32::MAX (without the ocean
term entering the result), and the scene field is therefore not
1-Lipschitz across the radius-15 cutoff: two concrete points straddling
the cutoff differ in scene value by far more than their distance. -/
theorem c9_radius15_cutoff (time : ℝ) (point : Vec3)
    (h : 15 < point.length) :
    scene time point = f32Max ∧
    ∃ q q' : Vec3, Vec3.length q ≤ 15 ∧ 15 < Vec3.length q' ∧
      (q - q').length < |scene time q - scene time q'| := by
  have h15 : Vec3.length ⟨15, 0, 0⟩ = 15 := Vec3.length_xaxis 15 (by norm_num)
  have h16 : Vec3.length ⟨16, 0, 0⟩ = 16 := Vec3.length_xaxis 16 (by norm_num)
  have hmain : ∀ q' : Vec3, 15 < q'.length → scene time q' = f32Max := by
    intro q' hq'
    rw [scene_eq4, if_neg (not_le.mpr hq')]
  refine ⟨hmain point h, ⟨15, 0, 0⟩, ⟨16, 0, 0⟩, le_of_eq h15,
    by rw [h16]; norm_num, ?_⟩
  have hs15 : scene time ⟨15, 0, 0⟩ = 8 := by
    rw [scene_eq4, if_pos (le_of_eq h15)]
    have ho : sdf.ocean time ⟨15, 0, 0⟩ < 0 := by
      have := ocean_lt time ⟨15, 0, 0⟩
      simpa using this
    have hsph : sdf.sphere (⟨15, 0, 0⟩ : Vec3) 7 = 8 := by
      show Vec3.length ⟨15, 0, 0⟩ - 7 = 8
      rw [h15]; norm_num
    rw [hsph, max_eq_right (by linarith)]
  have hs16 : scene time ⟨16, 0, 0⟩ = f32Max := hmain _ (by rw [h16]; norm_num)
  have hdiff : (⟨15, 0, 0⟩ : Vec3) - ⟨16, 0, 0⟩ = ⟨-1, 0, 0⟩ := by
    ext <;> norm_num
  rw [hs15, hs16, hdiff]
  have hlen1 : Vec3.length ⟨-1, 0, 0⟩ = 1 := by
    simp only [Vec3.length, Vec3.dot]
    rw [show (-1:ℝ) * -1 + 0 * 0 + 0 * 0 = 1 by ring, Real.sqrt_one]
  rw [hlen1, abs_sub_comm, abs_of_nonneg (by norm_num [f32Max])]
  norm_num [f32Max]

/-- C9 witness: the cutoff behaviour at the concrete point (16, 0, 0),
whose length 16 exceeds the cutoff radius 15. -/
theorem c9_witness :
    15 < Vec3.length ⟨16, 0, 0⟩ ∧
    (scene 0 ⟨16, 0, 0⟩ = f32Max ∧
     ∃ q q' : Vec3, Vec3.length q ≤ 15 ∧ 15 < Vec3.length q' ∧
       (q - q').length < |scene 0 q - scene 0 q'|) :=
  have h16 : 15 < Vec3.length ⟨16, 0, 0⟩ := by
    rw [Vec3.length_xaxis 16 (by norm_num)]; norm_num
  ⟨h16, c9_radius15_cutoff 0 ⟨16, 0, 0⟩ h16⟩

/-- Helper: the dot product is symmetric. -/
theorem Vec3.dot_comm (a b : Vec3) : a.dot b = b.dot a := by
  simp only [Vec3.dot]; ring

/-- Helper: the dot product is additive on the left. -/
theorem Vec3.dot_add_left (a b c : Vec3) :
    (a + b).dot c = a.dot c + b.dot c := by
  simp only [Vec3.dot, Vec3.add_x, Vec3.add_y, Vec3.add_z]; ring

/-- Helper: the dot product is additive on the right. -/
theorem Vec3.dot_add_right (a b c : Vec3) :
    a.dot (b + c) = a.dot b + a.dot c := by
  simp only [Vec3.dot, Vec3.add_x, Vec3.add_y, Vec3.add_z]; ring

/-- Helper: the dot product scales on the left. -/
theorem Vec3.dot_smul_left (c : ℝ) (a b : Vec3) :
    (c • a).dot b = c * a.dot b := by
  simp only [Vec3.dot, Vec3.smul_x, Vec3.smul_y, Vec3.smul_z]; ring

/-- Helper: the dot product scales on the right. -/
theorem Vec3.dot_smul_right (c : ℝ) (a b : Vec3) :
    a.dot (c • b) = c * a.dot b := by
  simp only [Vec3.dot, Vec3.smul_x, Vec3.smul_y, Vec3.smul_z]; ring

/-- Helper: the dot product negates on the left. -/
theorem Vec3.dot_neg_left (a b : Vec3) : (-a).dot b = -(a.dot b) := by
  simp only [Vec3.dot, Vec3.neg_x, Vec3.neg_y, Vec3.neg_z]; ring

/-- Helper: the dot product negates on the right. -/
theorem Vec3.dot_neg_right (a b : Vec3) : a.dot (-b) = -(a.dot b) := by
  simp only [Vec3.dot, Vec3.neg_x, Vec3.neg_y, Vec3.neg_z]; ring

/-- Helper: y component of a normalized vector. -/
theorem Vec3.normalize_y (v : Vec3) :
    (Vec3.normalize v).y = v.y / v.length := rfl

/-- Helper: dotting with a normalized vector on the right divides by the
length. -/
theorem Vec3.dot_normalize_right (a v : Vec3) :
    a.dot (Vec3.normalize v) = a.dot v / v.length := by
  simp only [Vec3.dot, Vec3.normalize]; ring

/-- Helper: dotting with a normalized vector on the left divides by the
length. -/
theorem Vec3.dot_normalize_left (v a : Vec3) :
    (Vec3.normalize v).dot a = v.dot a / v.length := by
  simp only [Vec3.dot, Vec3.normalize]; ring

/-- Helper: a normalized nonzero vector is a unit vector for the dot
product. -/
theorem Vec3.normalize_dot_self (w : Vec3) (h : 0 < w.dot w) :
    (Vec3.normalize w).dot (Vec3.normalize w) = 1 := by
  have hlne : w.length ≠ 0 := by
    rw [Vec3.length]
    exact ne_of_gt (Real.sqrt_pos.mpr h)
  have hl2 : w.length ^ 2 = w.dot w := Vec3.sq_length w
  rw [Vec3.dot_normalize_left, Vec3.dot_normalize_right]
  rw [div_div, ← sq, hl2]
  exact div_self (ne_of_gt h)

/-- Helper: self-dot of an orthonormal-frame combination with weights
(a, 0, 1). -/
theorem dot_combo (a : ℝ) (s u f : Vec3)
    (hss : Vec3.dot s s = 1) (hsf : Vec3.dot s f = 0)
    (hff : Vec3.dot f f = 1) :
    Vec3.dot (a • s + (0 : ℝ) • u + (1 : ℝ) • f)
      (a • s + (0 : ℝ) • u + (1 : ℝ) • f) = a ^ 2 + 1 := by
  simp only [Vec3.dot, Vec3.add_x, Vec3.add_y, Vec3.add_z, Vec3.smul_x,
    Vec3.smul_y, Vec3.smul_z] at hss hsf hff ⊢
  linear_combination a ^ 2 * hss + 2 * a * hsf + hff

/-- Helper: dotting a fixed vector against a frame combination with
weights (a, 0, 1). -/
theorem dot_combo_left (a : ℝ) (o s u f : Vec3) :
    Vec3.dot o (a • s + (0 : ℝ) • u + (1 : ℝ) • f) =
      a * Vec3.dot o s + Vec3.dot o f := by
  simp only [Vec3.dot, Vec3.add_x, Vec3.add_y, Vec3.add_z, Vec3.smul_x,
    Vec3.smul_y, Vec3.smul_z]
  ring

/-- Helper: y component of a frame combination with weights (a, 0, 1). -/
theorem combo_y (a : ℝ) (s u f : Vec3) :
    (a • s + (0 : ℝ) • u + (1 : ℝ) • f).y = a * s.y + f.y := by
  simp only [Vec3.add_y, Vec3.smul_y]
  ring

/-- C6.  A march that encounters no surface reports the no-hit sentinel
(the source's positive-infinity value, embedded as `none`), which is
distinguishable from every finite hit point, and whenever the per-pixel
ray of the fragment shader marches to the sentinel the shader emits
exactly the background color (0, 0, 0, 1). -/
theorem c6_no_hit_background (pos : Vec4) (params : Params)
    (h : march params.time ⟨7, 4, 7⟩ (direction ⟨7, 4, 7⟩
      ⟨(pos.xy).x / (params.width : ℝ),
       (pos.xy).y / (params.height : ℝ)⟩) = none) :
    (∀ p : Vec3, march params.time ⟨7, 4, 7⟩ (direction ⟨7, 4, 7⟩
      ⟨(pos.xy).x / (params.width : ℝ),
       (pos.xy).y / (params.height : ℝ)⟩) ≠ some p) ∧
    main_fs pos params = ⟨0, 0, 0, 1⟩ := by
  constructor
  · intro p hp
    rw [h] at hp
    exact Option.noConfusion hp
  · simp only [main_fs]
    rw [h]

/-- Helper: any unit ray from the camera origin (7, 4, 7) whose dot
with the origin is a small negative number and whose y component is
nonpositive escapes the radius-15 scene cutoff within four marching
steps, so the march yields the no-hit sentinel. -/
theorem march_escape_general (d : Vec3) (c g : ℝ)
    (hdd : d.dot d = 1)
    (hod : Vec3.dot ⟨7, 4, 7⟩ d = -c)
    (hdy : d.y = -g)
    (hc0 : 0 < c) (hc1 : c ≤ 0.0000055) (hg0 : 0 ≤ g) :
    marchFn (scene 0) ⟨7, 4, 7⟩ d = none := by
  have hoo : Vec3.dot ⟨7, 4, 7⟩ ⟨7, 4, 7⟩ = 114 := by norm_num [Vec3.dot]
  have hdo : Vec3.dot d ⟨7, 4, 7⟩ = -c := by rw [Vec3.dot_comm]; exact hod
  have hS : ∀ t : ℝ, Vec3.dot ((⟨7, 4, 7⟩ : Vec3) + t • d)
      ((⟨7, 4, 7⟩ : Vec3) + t • d) = 114 + t ^ 2 - 2 * c * t := by
    intro t
    simp only [Vec3.dot_add_left, Vec3.dot_add_right, Vec3.dot_smul_left,
      Vec3.dot_smul_right]
    rw [hoo, hod, hdo, hdd]
    ring
  have hy : ∀ t : ℝ, ((⟨7, 4, 7⟩ : Vec3) + t • d).y = 4 - g * t := by
    intro t
    simp only [Vec3.add_y, Vec3.smul_y, hdy]
    show (4 : ℝ) + t * -g = 4 - g * t
    ring
  have hlen : ∀ t : ℝ, ((⟨7, 4, 7⟩ : Vec3) + t • d).length =
      Real.sqrt (114 + t ^ 2 - 2 * c * t) := by
    intro t
    rw [Vec3.length, hS]
  have hoc : ∀ t : ℝ, 0 ≤ t →
      sdf.ocean 0 ((⟨7, 4, 7⟩ : Vec3) + t • d) < 4 := by
    intro t ht
    have h1 := ocean_lt 0 ((⟨7, 4, 7⟩ : Vec3) + t • d)
    rw [hy t] at h1
    nlinarith
  have hesc : ∀ t : ℝ, 14.1 ≤ t → t ≤ 15.1 →
      marchAux (scene 0) ⟨7, 4, 7⟩ d 61 t = none := by
    intro t h1 h2
    show marchAux (scene 0) ⟨7, 4, 7⟩ d (60 + 1) t = none
    rw [marchAux_succ]
    have hct : c * t ≤ 0.0000055 * 15.1 :=
      mul_le_mul hc1 h2 (by linarith) (by norm_num)
    have hout : ¬ ((⟨7, 4, 7⟩ : Vec3) + t • d).length ≤ 15 := by
      rw [hlen t]
      push_neg
      refine (Real.lt_sqrt (by norm_num)).mpr ?_
      nlinarith [sq_nonneg (t - 14.1)]
    have hsc : scene 0 ((⟨7, 4, 7⟩ : Vec3) + t • d) = f32Max := by
      rw [scene_eq4, if_neg hout]
    rw [hsc]
    rw [if_neg (show ¬ (f32Max < 0.01) by norm_num [f32Max])]
    rw [if_pos (show t + f32Max > 100 by
      have : (102 : ℝ) ≤ f32Max := by norm_num [f32Max]
      linarith)]
  have hband : ∀ t a b : ℝ, 0 ≤ t → 4 ≤ a → a ≤ b →
      (7 + a) ^ 2 + 2 * c * t ≤ 114 + t ^ 2 →
      114 + t ^ 2 ≤ (7 + b) ^ 2 →
      114 + t ^ 2 ≤ 225 →
      a ≤ scene 0 ((⟨7, 4, 7⟩ : Vec3) + t • d) ∧
      scene 0 ((⟨7, 4, 7⟩ : Vec3) + t • d) ≤ b := by
    intro t a b ht ha hab hA hB hIn
    have hctpos : 0 ≤ 2 * c * t := by positivity
    have hin : ((⟨7, 4, 7⟩ : Vec3) + t • d).length ≤ 15 := by
      rw [hlen t]
      exact Real.sqrt_le_iff.mpr ⟨by norm_num, by nlinarith⟩
    have hsc : scene 0 ((⟨7, 4, 7⟩ : Vec3) + t • d) =
        max (sdf.ocean 0 ((⟨7, 4, 7⟩ : Vec3) + t • d))
          (sdf.sphere ((⟨7, 4, 7⟩ : Vec3) + t • d) 7) := by
      rw [scene_eq4, if_pos hin]
    have hsphere : sdf.sphere ((⟨7, 4, 7⟩ : Vec3) + t • d) 7 =
        Real.sqrt (114 + t ^ 2 - 2 * c * t) - 7 := by
      show ((⟨7, 4, 7⟩ : Vec3) + t • d).length - 7 = _
      rw [hlen t]
    have hsphere_lo : a ≤ sdf.sphere ((⟨7, 4, 7⟩ : Vec3) + t • d) 7 := by
      rw [hsphere]
      have h7a : (7 + a) ≤ Real.sqrt (114 + t ^ 2 - 2 * c * t) := by
        refine (Real.le_sqrt (by linarith) (by nlinarith [sq_nonneg (7 + a)])).mpr
          (by linarith)
      linarith
    have hsphere_hi : sdf.sphere ((⟨7, 4, 7⟩ : Vec3) + t • d) 7 ≤ b := by
      rw [hsphere]
      have h7b : Real.sqrt (114 + t ^ 2 - 2 * c * t) ≤ 7 + b :=
        Real.sqrt_le_iff.mpr ⟨by linarith, by linarith⟩
      linarith
    refine ⟨?_, ?_⟩
    · rw [hsc]
      exact le_trans hsphere_lo (le_max_right _ _)
    · rw [hsc]
      exact max_le (le_trans (le_of_lt (hoc t ht)) (by linarith)) hsphere_hi
  have hit2 : ∀ t : ℝ, 7.86 ≤ t → t ≤ 8.41 →
      marchAux (scene 0) ⟨7, 4, 7⟩ d 62 t = none := by
    intro t h1 h2
    have hct : c * t ≤ 0.0000055 * 8.41 :=
      mul_le_mul hc1 h2 (by linarith) (by norm_num)
    obtain ⟨ha, hb⟩ := hband t 6.25 6.6 (by linarith) (by norm_num)
      (by norm_num)
      (by nlinarith [sq_nonneg (t - 7.86)])
      (by nlinarith [sq_nonneg (8.41 - t)])
      (by nlinarith [sq_nonneg (8.41 - t)])
    show marchAux (scene 0) ⟨7, 4, 7⟩ d (61 + 1) t = none
    rw [marchAux_succ]
    rw [if_neg (not_lt.mpr
      (show (0.01 : ℝ) ≤ scene 0 ((⟨7, 4, 7⟩ : Vec3) + t • d) by linarith))]
    rw [if_neg (show ¬ (t + scene 0 ((⟨7, 4, 7⟩ : Vec3) + t • d) > 100) by
      push_neg; linarith)]
    exact hesc (t + scene 0 ((⟨7, 4, 7⟩ : Vec3) + t • d)) (by linarith)
      (by linarith)
  have hit1 : ∀ t : ℝ, 3.6 ≤ t → t ≤ 4 →
      marchAux (scene 0) ⟨7, 4, 7⟩ d 63 t = none := by
    intro t h1 h2
    have hct : c * t ≤ 0.0000055 * 4 :=
      mul_le_mul hc1 h2 (by linarith) (by norm_num)
    obtain ⟨ha, hb⟩ := hband t 4.26 4.41 (by linarith) (by norm_num)
      (by norm_num)
      (by nlinarith [sq_nonneg (t - 3.6)])
      (by nlinarith [sq_nonneg (4 - t)])
      (by nlinarith [sq_nonneg (4 - t)])
    show marchAux (scene 0) ⟨7, 4, 7⟩ d (62 + 1) t = none
    rw [marchAux_succ]
    rw [if_neg (not_lt.mpr
      (show (0.01 : ℝ) ≤ scene 0 ((⟨7, 4, 7⟩ : Vec3) + t • d) by linarith))]
    rw [if_neg (show ¬ (t + scene 0 ((⟨7, 4, 7⟩ : Vec3) + t • d) > 100) by
      push_neg; linarith)]
    exact hit2 (t + scene 0 ((⟨7, 4, 7⟩ : Vec3) + t • d)) (by linarith)
      (by linarith)
  show marchAux (scene 0) ⟨7, 4, 7⟩ d (63 + 1) 0 = none
  rw [marchAux_succ]
  have h114 : (114 : ℝ) + (0 : ℝ) ^ 2 - 2 * c * 0 = 114 := by ring
  have hin0 : ((⟨7, 4, 7⟩ : Vec3) + (0 : ℝ) • d).length ≤ 15 := by
    rw [hlen 0, h114]
    exact Real.sqrt_le_iff.mpr ⟨by norm_num, by norm_num⟩
  have hsc0 : scene 0 ((⟨7, 4, 7⟩ : Vec3) + (0 : ℝ) • d) =
      max (sdf.ocean 0 ((⟨7, 4, 7⟩ : Vec3) + (0 : ℝ) • d))
        (sdf.sphere ((⟨7, 4, 7⟩ : Vec3) + (0 : ℝ) • d) 7) := by
    rw [scene_eq4, if_pos hin0]
  have hsph0 : sdf.sphere ((⟨7, 4, 7⟩ : Vec3) + (0 : ℝ) • d) 7 =
      Real.sqrt 114 - 7 := by
    show ((⟨7, 4, 7⟩ : Vec3) + (0 : ℝ) • d).length - 7 = _
    rw [hlen 0, h114]
  have hsqrt_lo : (10.6 : ℝ) < Real.sqrt 114 :=
    (Real.lt_sqrt (by norm_num)).mpr (by norm_num)
  have hsqrt_hi : Real.sqrt 114 < 11 :=
    (Real.sqrt_lt' (by norm_num)).mpr (by norm_num)
  have hstep0_lo : (3.6 : ℝ) <
      scene 0 ((⟨7, 4, 7⟩ : Vec3) + (0 : ℝ) • d) := by
    rw [hsc0]
    refine lt_of_lt_of_le ?_ (le_max_right _ _)
    rw [hsph0]
    linarith
  have hstep0_hi : scene 0 ((⟨7, 4, 7⟩ : Vec3) + (0 : ℝ) • d) < 4 := by
    rw [hsc0]
    exact max_lt (hoc 0 le_rfl) (by rw [hsph0]; linarith)
  rw [if_neg (not_lt.mpr
    (show (0.01 : ℝ) ≤ scene 0 ((⟨7, 4, 7⟩ : Vec3) + (0 : ℝ) • d) by
      linarith))]
  rw [if_neg (show ¬ ((0 : ℝ) + scene 0 ((⟨7, 4, 7⟩ : Vec3) + (0 : ℝ) • d)
      > 100) by push_neg; linarith)]
  exact hit1 ((0 : ℝ) + scene 0 ((⟨7, 4, 7⟩ : Vec3) + (0 : ℝ) • d))
    (by linarith) (by linarith)

/-- Helper: the concrete camera ray through the far-off-screen pixel
uv = (1000000.5, 0.5) is a unit vector, is nearly orthogonal to the
camera origin, and points (very slightly) downward: the quantitative
facts the escape argument needs. -/
theorem c6_direction_facts :
    ∃ c g : ℝ, 0 < c ∧ c ≤ 0.0000055 ∧ 0 ≤ g ∧
      Vec3.dot (direction ⟨7, 4, 7⟩ ⟨1000000.5, 0.5⟩)
        (direction ⟨7, 4, 7⟩ ⟨1000000.5, 0.5⟩) = 1 ∧
      Vec3.dot ⟨7, 4, 7⟩ (direction ⟨7, 4, 7⟩ ⟨1000000.5, 0.5⟩) = -c ∧
      (direction ⟨7, 4, 7⟩ ⟨1000000.5, 0.5⟩).y = -g := by
  have hoo : Vec3.dot ⟨7, 4, 7⟩ ⟨7, 4, 7⟩ = 114 := by norm_num [Vec3.dot]
  have hL2 : Vec3.length ⟨7, 4, 7⟩ ^ 2 = 114 := by
    rw [Vec3.sq_length, hoo]
  have hLpos : 0 < Vec3.length ⟨7, 4, 7⟩ := by
    rw [Vec3.length, hoo]
    exact Real.sqrt_pos.mpr (by norm_num)
  have hLne : Vec3.length ⟨7, 4, 7⟩ ≠ 0 := ne_of_gt hLpos
  have hLlo : 10.6 < Vec3.length ⟨7, 4, 7⟩ := by
    rw [Vec3.length, hoo]
    exact (Real.lt_sqrt (by norm_num)).mpr (by norm_num)
  set f0 : Vec3 := -(Vec3.normalize ⟨7, 4, 7⟩) with hf0
  set v : Vec3 := ⟨7 / Vec3.length ⟨7, 4, 7⟩, 0,
    -(7 / Vec3.length ⟨7, 4, 7⟩)⟩ with hv
  have hfxu : Vec3.cross f0 ⟨0, 1, 0⟩ = v := by
    rw [hf0, hv]
    ext
    · show -(4 / Vec3.length ⟨7, 4, 7⟩) * 0 -
        -(7 / Vec3.length ⟨7, 4, 7⟩) * 1 = 7 / Vec3.length ⟨7, 4, 7⟩
      ring
    · show -(7 / Vec3.length ⟨7, 4, 7⟩) * 0 -
        -(7 / Vec3.length ⟨7, 4, 7⟩) * 0 = 0
      ring
    · show -(7 / Vec3.length ⟨7, 4, 7⟩) * 1 -
        -(4 / Vec3.length ⟨7, 4, 7⟩) * 0 = -(7 / Vec3.length ⟨7, 4, 7⟩)
      ring
  have hvdot : Vec3.dot v v = 98 / 114 := by
    rw [hv]
    show 7 / Vec3.length ⟨7, 4, 7⟩ * (7 / Vec3.length ⟨7, 4, 7⟩) +
      0 * 0 + -(7 / Vec3.length ⟨7, 4, 7⟩) *
        -(7 / Vec3.length ⟨7, 4, 7⟩) = 98 / 114
    field_simp
    linear_combination (-98) * hL2
  have hvpos : 0 < Vec3.dot v v := by rw [hvdot]; norm_num
  set s0 : Vec3 := Vec3.normalize v with hs0
  set u0 : Vec3 := Vec3.cross s0 f0 with hu0
  set W : Vec3 := (2000000 : ℝ) • s0 + (0 : ℝ) • u0 + (1 : ℝ) • f0
    with hWdef
  have hss : Vec3.dot s0 s0 = 1 := by
    rw [hs0]; exact Vec3.normalize_dot_self v hvpos
  have hsf : Vec3.dot s0 f0 = 0 := by
    rw [hs0, Vec3.dot_normalize_left]
    have hvf : Vec3.dot v f0 = 0 := by
      rw [hf0, Vec3.dot_neg_right, Vec3.dot_normalize_right]
      have : Vec3.dot v ⟨7, 4, 7⟩ = 0 := by
        rw [hv]
        show 7 / Vec3.length ⟨7, 4, 7⟩ * 7 + 0 * 4 +
          -(7 / Vec3.length ⟨7, 4, 7⟩) * 7 = 0
        ring
      rw [this]
      simp
    rw [hvf, zero_div]
  have hff : Vec3.dot f0 f0 = 1 := by
    rw [hf0, Vec3.dot_neg_left, Vec3.dot_neg_right, neg_neg]
    exact Vec3.normalize_dot_self ⟨7, 4, 7⟩ (by rw [hoo]; norm_num)
  have hos : Vec3.dot ⟨7, 4, 7⟩ s0 = 0 := by
    rw [hs0, Vec3.dot_normalize_right]
    have : Vec3.dot (⟨7, 4, 7⟩ : Vec3) v = 0 := by
      rw [hv]
      show 7 * (7 / Vec3.length ⟨7, 4, 7⟩) + 4 * 0 +
        7 * -(7 / Vec3.length ⟨7, 4, 7⟩) = 0
      ring
    rw [this, zero_div]
  have hof : Vec3.dot ⟨7, 4, 7⟩ f0 =
      -(114 / Vec3.length ⟨7, 4, 7⟩) := by
    rw [hf0, Vec3.dot_neg_right, Vec3.dot_normalize_right, hoo]
  have hsy : s0.y = 0 := by
    rw [hs0, Vec3.normalize_y, hv]
    show (0 : ℝ) / Vec3.length v = 0
    exact zero_div _
  have hfy : f0.y = -(4 / Vec3.length ⟨7, 4, 7⟩) := by
    rw [hf0]
    show -((4 : ℝ) / Vec3.length ⟨7, 4, 7⟩) = _
    rfl
  have hWdot : Vec3.dot W W = 4000000000001 := by
    rw [hWdef, dot_combo 2000000 s0 u0 f0 hss hsf hff]
    norm_num
  have hWpos : 0 < Vec3.dot W W := by rw [hWdot]; norm_num
  have hNpos : 0 < Vec3.length W := by
    rw [Vec3.length]
    exact Real.sqrt_pos.mpr hWpos
  have hNne : Vec3.length W ≠ 0 := ne_of_gt hNpos
  have hNlo : 2000000 ≤ Vec3.length W := by
    rw [Vec3.length, hWdot]
    exact (Real.le_sqrt (by norm_num) (by norm_num)).mpr (by norm_num)
  have hdir : direction ⟨7, 4, 7⟩ ⟨1000000.5, 0.5⟩ = Vec3.normalize W := by
    show Vec3.normalize
      (Mat3.mulVec
        ⟨Vec3.normalize (Vec3.cross f0 ⟨0, 1, 0⟩),
         Vec3.cross (Vec3.normalize (Vec3.cross f0 ⟨0, 1, 0⟩)) f0, f0⟩
        (Vec2.extend ⟨1000000.5 * 2 - 1, -(0.5 * 2 - 1)⟩ 1)) =
      Vec3.normalize W
    rw [hfxu, ← hs0, ← hu0, hWdef]
    congr 1
    ext <;>
      simp only [Mat3.mulVec, Vec2.extend, Vec3.add_x, Vec3.add_y,
        Vec3.add_z, Vec3.smul_x, Vec3.smul_y, Vec3.smul_z] <;>
      norm_num
  have hprod : 21200000 ≤ Vec3.length ⟨7, 4, 7⟩ * Vec3.length W := by
    have := mul_le_mul hLlo.le hNlo (by norm_num) (by linarith)
    linarith
  refine ⟨114 / (Vec3.length ⟨7, 4, 7⟩ * Vec3.length W),
    4 / (Vec3.length ⟨7, 4, 7⟩ * Vec3.length W), ?_, ?_, ?_, ?_, ?_, ?_⟩
  · exact div_pos (by norm_num) (mul_pos hLpos hNpos)
  · calc 114 / (Vec3.length ⟨7, 4, 7⟩ * Vec3.length W)
        ≤ 114 / 21200000 :=
          div_le_div_of_nonneg_left (by norm_num) (by norm_num) hprod
      _ ≤ 0.0000055 := by norm_num
  · exact le_of_lt (div_pos (by norm_num) (mul_pos hLpos hNpos))
  · rw [hdir]
    exact Vec3.normalize_dot_self W hWpos
  · rw [hdir, Vec3.dot_normalize_right, hWdef, dot_combo_left, hos, hof]
    field_simp
  · rw [hdir, Vec3.normalize_y, hWdef, combo_y, hsy, hfy]
    field_simp

/-- Helper: the concrete ray through uv = (1000000.5, 0.5) marches to
the no-hit sentinel. -/
theorem march_escape :
    march 0 ⟨7, 4, 7⟩ (direction ⟨7, 4, 7⟩ ⟨1000000.5, 0.5⟩) = none := by
  obtain ⟨c, g, h1, h2, h3, h4, h5, h6⟩ := c6_direction_facts
  exact march_escape_general _ c g h4 h5 h6 h1 h2 h3

/-- C6 witness: at the concrete fragment position (1000000.5, 0.5) with
a 1-by-1 viewport at time 0, the march returns the sentinel and the
shader outputs exactly the background color. -/
theorem c6_witness :
    march (0 : ℝ) ⟨7, 4, 7⟩ (direction ⟨7, 4, 7⟩ ⟨1000000.5, 0.5⟩) =
      none ∧
    main_fs ⟨1000000.5, 0.5, 0, 0⟩ ⟨1, 1, 0⟩ = ⟨0, 0, 0, 1⟩ := by
  have huv : (⟨(Vec4.xy ⟨1000000.5, 0.5, 0, 0⟩).x / ((1 : Nat) : ℝ),
      (Vec4.xy ⟨1000000.5, 0.5, 0, 0⟩).y / ((1 : Nat) : ℝ)⟩ : Vec2) =
      ⟨1000000.5, 0.5⟩ := by
    ext <;> simp [Vec4.xy]
  have h0 : march ((⟨1, 1, 0⟩ : Params)).time ⟨7, 4, 7⟩
      (direction ⟨7, 4, 7⟩
        ⟨((⟨1000000.5, 0.5, 0, 0⟩ : Vec4).xy).x /
          (((⟨1, 1, 0⟩ : Params)).width : ℝ),
         ((⟨1000000.5, 0.5, 0, 0⟩ : Vec4).xy).y /
          (((⟨1, 1, 0⟩ : Params)).height : ℝ)⟩) = none := by
    show march (0 : ℝ) ⟨7, 4, 7⟩ (direction ⟨7, 4, 7⟩
      ⟨(Vec4.xy ⟨1000000.5, 0.5, 0, 0⟩).x / ((1 : Nat) : ℝ),
       (Vec4.xy ⟨1000000.5, 0.5, 0, 0⟩).y / ((1 : Nat) : ℝ)⟩) = none
    rw [huv]
    exact march_escape
  exact ⟨march_escape,
    (c6_no_hit_background ⟨1000000.5, 0.5, 0, 0⟩ ⟨1, 1, 0⟩ h0).2⟩

/-- C7.  The SDF combinators are exactly minimum, maximum, and maximum
against the negation: for all real distance values `a` and `b`,
union is `min a b`, intersection is `max a b`, and subtraction is
`max a (-b)`. -/
theorem c7_combinators (a b : ℝ) :
    sdf.union a b = min a b ∧
    sdf.intersection a b = max a b ∧
    sdf.subtraction a b = max a (-b) :=
  ⟨rfl, rfl, rfl⟩

end SdfPlayground
